import Mathlib

/-!
Shallow embedding of the Hass.io add-on ingress proxy
(homeassistant/components/hassio/ingress.py).

Header containers: aiohttp stores request and response headers in a
CIMultiDict (multidict 4.x).  In that multidict generation every key is
canonicalised through istr, whose constructor applies Python str.title(),
so iteration over the multidict yields title-cased names and lookups are
case-insensitive via the same canonical form.  We model a CIMultiDict by
the list of its (name, value) items with title-cased names, produced from
the raw wire headers by ciItems.  The plain Python dicts built inside
_init_header and _response_header are modelled by association lists with
insert-or-overwrite (dictInsert), mirroring dict assignment.
-/

/-- ASCII letter test on a Unicode code point, as Python str.title() uses
to find word boundaries (header names are ASCII, so the ASCII fragment of
Python's cased-character test is the relevant one). -/
def isAlphaCode (n : Nat) : Bool :=
  decide ((65 ≤ n ∧ n ≤ 90) ∨ (97 ≤ n ∧ n ≤ 122))

/-- ASCII upper-casing of a code point. -/
def upperCode (n : Nat) : Nat := if 97 ≤ n ∧ n ≤ 122 then n - 32 else n

/-- ASCII lower-casing of a code point. -/
def lowerCode (n : Nat) : Nat := if 65 ≤ n ∧ n ≤ 90 then n + 32 else n

/-- One step of Python str.title(): a letter is upper-cased when the
previous character is not a letter and lower-cased otherwise; non-letters
pass through. -/
def titleChar (prevAlpha : Bool) (n : Nat) : Nat :=
  if isAlphaCode n then (if prevAlpha then lowerCode n else upperCode n) else n

/-- Scan of str.title() over a character list, carrying whether the
previous character was a letter. -/
def pyTitleAux (prev : Bool) : List Char → List Char
  | [] => []
  | c :: cs => Char.ofNat (titleChar prev c.toNat) :: pyTitleAux (isAlphaCode c.toNat) cs

/-- Python str.title(), the canonical form multidict 4.x istr gives every
CIMultiDict key. -/
def pyTitle (s : String) : String := String.mk (pyTitleAux false s.data)

theorem titleChar_cases (prev : Bool) (n : Nat) :
    titleChar prev n = n ∨ (33 ≤ titleChar prev n ∧ titleChar prev n ≤ 154) := by
  unfold titleChar upperCode lowerCode
  by_cases h : isAlphaCode n = true
  · have h' : (65 ≤ n ∧ n ≤ 90) ∨ (97 ≤ n ∧ n ≤ 122) := by simpa [isAlphaCode] using h
    rw [if_pos h]
    split_ifs <;> omega
  · rw [if_neg h]
    left
    rfl

theorem titleChar_valid (prev : Bool) {n : Nat} (h : n.isValidChar) :
    (titleChar prev n).isValidChar := by
  rcases titleChar_cases prev n with hc | hc
  · rw [hc]; exact h
  · exact Or.inl (by omega)

theorem toNat_ofNat_valid {n : Nat} (h : n.isValidChar) : (Char.ofNat n).toNat = n := by
  unfold Char.ofNat
  rw [dif_pos h]
  simp [Char.ofNatAux, Char.toNat, UInt32.toNat]

theorem char_toNat_valid (c : Char) : c.toNat.isValidChar := c.valid

theorem isAlphaCode_upperCode (n : Nat) : isAlphaCode (upperCode n) = isAlphaCode n := by
  unfold upperCode isAlphaCode
  split_ifs with h <;> rw [decide_eq_decide] <;> omega

theorem isAlphaCode_lowerCode (n : Nat) : isAlphaCode (lowerCode n) = isAlphaCode n := by
  unfold lowerCode isAlphaCode
  split_ifs with h <;> rw [decide_eq_decide] <;> omega

theorem upperCode_upperCode (n : Nat) : upperCode (upperCode n) = upperCode n := by
  unfold upperCode; split_ifs <;> omega

theorem lowerCode_lowerCode (n : Nat) : lowerCode (lowerCode n) = lowerCode n := by
  unfold lowerCode; split_ifs <;> omega

theorem isAlphaCode_titleChar (prev : Bool) (n : Nat) :
    isAlphaCode (titleChar prev n) = isAlphaCode n := by
  unfold titleChar
  split_ifs with h1 h2
  · exact isAlphaCode_lowerCode n
  · exact isAlphaCode_upperCode n
  · rfl

theorem titleChar_titleChar (prev : Bool) (n : Nat) :
    titleChar prev (titleChar prev n) = titleChar prev n := by
  by_cases h : isAlphaCode n = true
  · cases prev with
    | false =>
      have e1 : titleChar false n = upperCode n := by simp [titleChar, h]
      have e2 : isAlphaCode (upperCode n) = true := by rw [isAlphaCode_upperCode]; exact h
      have e3 : titleChar false (upperCode n) = upperCode (upperCode n) := by
        simp [titleChar, e2]
      rw [e1, e3, upperCode_upperCode]
    | true =>
      have e1 : titleChar true n = lowerCode n := by simp [titleChar, h]
      have e2 : isAlphaCode (lowerCode n) = true := by rw [isAlphaCode_lowerCode]; exact h
      have e3 : titleChar true (lowerCode n) = lowerCode (lowerCode n) := by
        simp [titleChar, e2]
      rw [e1, e3, lowerCode_lowerCode]
  · have e1 : titleChar prev n = n := by simp [titleChar, h]
    rw [e1, e1]

theorem pyTitleAux_idem (l : List Char) : ∀ prev : Bool,
    pyTitleAux prev (pyTitleAux prev l) = pyTitleAux prev l := by
  induction l with
  | nil => intro prev; rfl
  | cons c cs ih =>
    intro prev
    simp only [pyTitleAux]
    rw [toNat_ofNat_valid (titleChar_valid prev (char_toNat_valid c))]
    rw [titleChar_titleChar, isAlphaCode_titleChar, ih]

/-- pyTitle is idempotent: title-cased names are fixed points. -/
theorem pyTitle_idem (s : String) : pyTitle (pyTitle s) = pyTitle s := by
  unfold pyTitle
  exact congrArg String.mk (pyTitleAux_idem s.data false)

/-! ## CIMultiDict and plain-dict models -/

/-- Items of the CIMultiDict holding a set of wire headers: every key is
canonicalised to its istr (title-cased) form, order and duplicates kept. -/
def ciItems (raw : List (String × String)) : List (String × String) :=
  raw.map (fun p => (pyTitle p.1, p.2))

/-- First-match association-list lookup (CIMultiDict.get returns the first
value stored under a key, dict lookup has unique keys anyway). -/
def dictGet (k : String) : List (String × String) → Option String
  | [] => none
  | p :: t => if p.1 = k then some p.2 else dictGet k t

/-- CIMultiDict.get: case-insensitive via the canonical key form. -/
def ciGet (raw : List (String × String)) (name : String) : Option String :=
  dictGet (pyTitle name) (ciItems raw)

/-- The "name in multidict" membership test, case-insensitive. -/
def ciHas (raw : List (String × String)) (name : String) : Bool :=
  (ciItems raw).any (fun p => p.1 = pyTitle name)

/-- Python dict assignment on an association list: overwrite the entry in
place when the key exists, append otherwise. -/
def dictInsert (k v : String) : List (String × String) → List (String × String)
  | [] => [(k, v)]
  | p :: t => if p.1 = k then (k, v) :: t else p :: dictInsert k v t

/-- The keys of an association list. -/
def keysOf (d : List (String × String)) : List String := d.map Prod.fst

/-- The header-copy loops of _init_header and _response_header: iterate the
CIMultiDict items, skip the excluded names, assign the rest into a dict. -/
def copyHeaders (ex : List String) (acc : List (String × String)) :
    List (String × String) → List (String × String)
  | [] => acc
  | nv :: rest =>
    if nv.1 ∈ ex then copyHeaders ex acc rest
    else copyHeaders ex (dictInsert nv.1 nv.2 acc) rest

theorem dictGet_dictInsert_self (k v : String) (d : List (String × String)) :
    dictGet k (dictInsert k v d) = some v := by
  induction d with
  | nil => simp [dictInsert, dictGet]
  | cons p t ih =>
    by_cases h : p.1 = k
    · simp [dictInsert, h, dictGet]
    · simp [dictInsert, h, dictGet, ih]

theorem dictGet_dictInsert_ne (k k' v : String) (d : List (String × String))
    (h : k' ≠ k) : dictGet k' (dictInsert k v d) = dictGet k' d := by
  have h1 : ¬k = k' := fun he => h he.symm
  induction d with
  | nil => simp [dictInsert, dictGet, h1]
  | cons p t ih =>
    by_cases hp : p.1 = k
    · have h2 : ¬p.1 = k' := by rw [hp]; exact h1
      simp [dictInsert, hp, dictGet, h1, h2]
    · have e : dictInsert k v (p :: t) = p :: dictInsert k v t := by simp [dictInsert, hp]
      rw [e]
      by_cases hq : p.1 = k'
      · simp [dictGet, hq]
      · simp [dictGet, hq, ih]

theorem keysOf_dictInsert (k v : String) (d : List (String × String)) :
    keysOf (dictInsert k v d) =
      if k ∈ keysOf d then keysOf d else keysOf d ++ [k] := by
  induction d with
  | nil => simp [dictInsert, keysOf]
  | cons p t ih =>
    by_cases hp : p.1 = k
    · subst hp
      have e : dictInsert p.1 v (p :: t) = (p.1, v) :: t := by simp [dictInsert]
      rw [e]
      simp [keysOf]
    · have e : dictInsert k v (p :: t) = p :: dictInsert k v t := by simp [dictInsert, hp]
      rw [e]
      have hne : ¬k = p.1 := fun he => hp he.symm
      simp only [keysOf, List.map_cons] at ih ⊢
      rw [ih]
      by_cases hm : k ∈ List.map Prod.fst t
      · simp [hm, hne]
      · simp [hm, hne]

theorem mem_keysOf_dictInsert {x k v : String} {d : List (String × String)}
    (h : x ∈ keysOf (dictInsert k v d)) : x = k ∨ x ∈ keysOf d := by
  rw [keysOf_dictInsert] at h
  by_cases hm : k ∈ keysOf d
  · rw [if_pos hm] at h
    exact Or.inr h
  · rw [if_neg hm] at h
    rcases List.mem_append.mp h with h | h
    · exact Or.inr h
    · exact Or.inl (List.mem_singleton.mp h)

theorem nodup_keysOf_dictInsert {k v : String} {d : List (String × String)}
    (h : (keysOf d).Nodup) : (keysOf (dictInsert k v d)).Nodup := by
  rw [keysOf_dictInsert]
  by_cases hm : k ∈ keysOf d
  · rw [if_pos hm]
    exact h
  · rw [if_neg hm]
    simp [List.nodup_append, h, hm]

theorem dictInsert_eq_append {k : String} (v : String) {d : List (String × String)}
    (h : k ∉ keysOf d) : dictInsert k v d = d ++ [(k, v)] := by
  induction d with
  | nil => rfl
  | cons p t ih =>
    simp only [keysOf, List.map_cons, List.mem_cons] at h
    push_neg at h
    have hp : ¬p.1 = k := fun he => h.1 he.symm
    have ht : k ∉ keysOf t := h.2
    simp [dictInsert, hp, ih ht]

theorem dictGet_mem_of_nodup {k v : String} {d : List (String × String)}
    (hn : (keysOf d).Nodup) (hm : (k, v) ∈ d) : dictGet k d = some v := by
  induction d with
  | nil => cases hm
  | cons p t ih =>
    simp only [keysOf, List.map_cons, List.nodup_cons] at hn
    rcases List.mem_cons.mp hm with h | h
    · subst h
      simp [dictGet]
    · have hk : p.1 ≠ k := by
        intro he
        apply hn.1
        rw [he]
        exact List.mem_map.mpr ⟨(k, v), h, rfl⟩
      have hn2 : (keysOf t).Nodup := hn.2
      simp [dictGet, hk, ih hn2 h]

theorem nodup_keysOf_copyHeaders (ex : List String) (items : List (String × String)) :
    ∀ acc, (keysOf acc).Nodup → (keysOf (copyHeaders ex acc items)).Nodup := by
  induction items with
  | nil => intro acc h; exact h
  | cons nv rest ih =>
    intro acc h
    by_cases he : nv.1 ∈ ex
    · simp only [copyHeaders, he, if_true]
      exact ih acc h
    · simp only [copyHeaders, he, if_false]
      exact ih _ (nodup_keysOf_dictInsert h)

theorem mem_keysOf_copyHeaders {x : String} (ex : List String)
    (items : List (String × String)) :
    ∀ acc, x ∈ keysOf (copyHeaders ex acc items) → x ∈ keysOf acc ∨ x ∈ keysOf items := by
  induction items with
  | nil => intro acc h; exact Or.inl h
  | cons nv rest ih =>
    intro acc h
    by_cases he : nv.1 ∈ ex
    · simp only [copyHeaders, he, if_true] at h
      rcases ih acc h with h' | h'
      · exact Or.inl h'
      · exact Or.inr (by simp only [keysOf, List.map_cons, List.mem_cons]; exact Or.inr h')
    · simp only [copyHeaders, he, if_false] at h
      rcases ih _ h with h' | h'
      · rcases mem_keysOf_dictInsert h' with h'' | h''
        · exact Or.inr (by simp only [keysOf, List.map_cons, List.mem_cons]; exact Or.inl h'')
        · exact Or.inl h''
      · exact Or.inr (by simp only [keysOf, List.map_cons, List.mem_cons]; exact Or.inr h')

theorem copyHeaders_eq_filter (ex : List String) (items : List (String × String)) :
    ∀ acc, (keysOf items).Nodup → (∀ x ∈ keysOf acc, x ∉ keysOf items) →
      copyHeaders ex acc items = acc ++ items.filter (fun nv => decide (nv.1 ∉ ex)) := by
  induction items with
  | nil => intro acc _ _; simp [copyHeaders]
  | cons nv rest ih =>
    intro acc hn hd
    simp only [keysOf, List.map_cons, List.nodup_cons] at hn
    by_cases he : nv.1 ∈ ex
    · simp only [copyHeaders, he, if_true, List.filter_cons]
      rw [if_neg (by simpa using he)]
      exact ih acc hn.2 (fun x hx => fun hm => hd x hx (by
        simp only [keysOf, List.map_cons, List.mem_cons]
        exact Or.inr hm))
    · simp only [copyHeaders, he, if_false, List.filter_cons]
      rw [if_pos (by simpa using he)]
      have hnotin : nv.1 ∉ keysOf acc := fun hm =>
        hd nv.1 hm (by simp [keysOf])
      rw [ih _ hn.2 (fun x hx => ?_), dictInsert_eq_append nv.2 hnotin, List.append_assoc]
      · rfl
      · rcases mem_keysOf_dictInsert hx with h' | h'
        · subst h'
          exact hn.1
        · exact fun hm => hd x h' (by
            simp only [keysOf, List.map_cons, List.mem_cons]
            exact Or.inr hm)

/-! ## Constants and the header transformer -/

/-- Modelled from the spec: the name of the internal trust-token header the
outbound transform injects.  It is defined in the component's const.py,
which sits outside the embedded source file; the deployed constant is the
title-cased string used here. -/
def X_HASSIO : String := "X-Hassio-Key"

/-- Modelled from the spec: the name of the ingress-path marker header the
outbound transform injects (from the component's const.py, outside the
embedded source file). -/
def X_INGRESS_PATH : String := "X-Ingress-Path"

/-- The value stored under X-Forwarded-For: append the resolved peer IP to
a truthy existing value, else the peer IP alone (lines 156-163). -/
def forwardForValue (ci : List (String × String)) (peer : String) : String :=
  match dictGet "X-Forwarded-For" ci with
  | some v => if v ≠ "" then v ++ ", " ++ peer else peer
  | none => peer

/-- The value stored under X-Forwarded-Host: a truthy existing value, else
the inbound Host (lines 165-169). -/
def forwardHostValue (ci : List (String × String)) (host : String) : String :=
  match dictGet "X-Forwarded-Host" ci with
  | some v => if v ≠ "" then v else host
  | none => host

/-- The value stored under X-Forwarded-Proto: a truthy existing value, else
the inbound URL scheme (lines 171-175). -/
def forwardProtoValue (ci : List (String × String)) (scheme : String) : String :=
  match dictGet "X-Forwarded-Proto" ci with
  | some v => if v ≠ "" then v else scheme
  | none => scheme

/-- Body of _init_header on the canonical CIMultiDict items: copy all
headers except Content-Length and Content-Type into a fresh dict, then
assign the trust token (HASSIO_TOKEN environment value, empty string when
unset), the ingress path, X-Forwarded-For, X-Forwarded-Host and
X-Forwarded-Proto (lines 138-177). -/
def initHeaderCI (ci : List (String × String)) (addon : String) (env : Option String)
    (peer host scheme : String) : List (String × String) :=
  let headers := copyHeaders ["Content-Length", "Content-Type"] [] ci
  let headers := dictInsert X_HASSIO (env.getD "") headers
  let headers := dictInsert X_INGRESS_PATH ("/api/hassio_ingress/" ++ addon) headers
  let headers := dictInsert "X-Forwarded-For" (forwardForValue ci peer) headers
  let headers := dictInsert "X-Forwarded-Host" (forwardHostValue ci host) headers
  dictInsert "X-Forwarded-Proto" (forwardProtoValue ci scheme) headers

/-- _init_header: create the outbound header dict from the raw inbound wire
headers (held by aiohttp in a CIMultiDict), the addon id, the process
environment's HASSIO_TOKEN, the resolved peer IP, the inbound host and the
inbound URL scheme. -/
def _init_header (reqHeaders : List (String × String)) (addon : String)
    (env : Option String) (peer host scheme : String) : List (String × String) :=
  initHeaderCI (ciItems reqHeaders) addon env peer host scheme

/-- _response_header: copy every backend response header except
Transfer-Encoding, Content-Length and Content-Type into a fresh dict
(lines 180-190). -/
def _response_header (respHeaders : List (String × String)) : List (String × String) :=
  copyHeaders ["Transfer-Encoding", "Content-Length", "Content-Type"] [] (ciItems respHeaders)

/-- _is_websocket: the Connection header equals the exact string Upgrade
and the Upgrade header equals the exact string websocket (lines 193-200).
Header-name lookup is case-insensitive (CIMultiDict); the value comparison
is plain string equality. -/
def _is_websocket (reqHeaders : List (String × String)) : Bool :=
  if ciGet reqHeaders "Connection" = some "Upgrade" ∧
      ciGet reqHeaders "Upgrade" = some "websocket" then
    true
  else
    false

/-! ## The HTTP forwarder and the dispatcher -/

/-- ASCII whitespace, the fragment of Python str.strip()'s whitespace
class relevant to header values. -/
def isPySpace (c : Char) : Bool :=
  c = ' ' || c = '\t' || c = '\n' || c = '\r' || c = '\x0b' || c = '\x0c'

/-- Strip surrounding whitespace from a character list. -/
def stripChars (cs : List Char) : List Char :=
  ((cs.dropWhile isPySpace).reverse.dropWhile isPySpace).reverse

/-- Python int() on a string: strip surrounding whitespace, allow one
optional sign, then a non-empty run of decimal digits; anything else
raises ValueError, modelled as none.  (Digit-group underscores, accepted
since Python 3.6, are not modelled; no claim touches them.) -/
def pyInt (s : String) : Option Int :=
  let cs := stripChars s.data
  let signed : Int × List Char :=
    match cs with
    | c :: rest => if c = '-' then (-1, rest) else if c = '+' then (1, rest) else (1, cs)
    | [] => (1, [])
  if signed.2 ≠ [] ∧ signed.2.all (fun c => c.isDigit) then
    some (signed.1 * (signed.2.foldl (fun acc c => 10 * acc + (c.toNat - 48)) 0 : Nat))
  else
    none

/-- Exceptions relevant to the dispatcher: aiohttp.ClientError raised by
the backend connection, and ValueError raised by int(). -/
inductive PyErr
  | clientError
  | valueError
deriving DecidableEq, Repr

/-- A backend HTTP response as the proxy observes it: status code, raw
response headers (a CIMultiDict on the wire side), the body as the chunk
sequence produced by the content stream, and the parsed content type. -/
structure BackendResponse where
  status : Nat
  headers : List (String × String)
  chunks : List String
  content_type : String
deriving DecidableEq, Repr

/-- The reply _handle_request produces: a fully read web.Response or a
web.StreamResponse relaying the chunks (lines 111-135). -/
inductive Reply
  | buffered (status : Nat) (headers : List (String × String)) (body : String)
  | streamed (status : Nat) (headers : List (String × String)) (content_type : String)
      (chunks : List String)
deriving DecidableEq, Repr

/-- The streaming threshold constant (line 113). -/
def STREAM_THRESHOLD : Int := 4194000

/-- _handle_request (lines 97-135) with the backend connection outcome as
an oracle: ClientError on connection failure, otherwise the backend
response.  On success: if Content-Length is present and int() of its first
value is below the threshold, return a buffered Response with the
transformed headers, the original status and the fully read body;
otherwise stream.  int() of a malformed value raises ValueError. -/
def handleRequest (conn : Except Unit BackendResponse) : Except PyErr Reply :=
  match conn with
  | .error _ => .error .clientError
  | .ok result =>
    let headers := _response_header result.headers
    if ciHas result.headers "Content-Length" then
      match pyInt ((ciGet result.headers "Content-Length").getD "0") with
      | none => .error .valueError
      | some n =>
        if n < STREAM_THRESHOLD then
          .ok (.buffered result.status headers (String.join result.chunks))
        else
          .ok (.streamed result.status headers result.content_type result.chunks)
    else
      .ok (.streamed result.status headers result.content_type result.chunks)

/-- What the dispatcher hands to the web framework: a reply, a live
websocket session, the HTTPBadGateway raised after a caught ClientError,
or an exception the except clause does not catch. -/
inductive HandleResult
  | reply (r : Reply)
  | wsSession
  | badGateway
  | unhandledValueError
deriving DecidableEq, Repr

/-- The status code of aiohttp's HTTPBadGateway. -/
def badGatewayStatus : Nat := 502

/-- _handle (lines 45-60): classify the request, delegate to the websocket
or plain-HTTP path, turn any aiohttp.ClientError into HTTPBadGateway.
The websocket connection outcome is likewise an oracle.  ValueError is not
an aiohttp.ClientError, so it escapes the except clause. -/
def handle (reqHeaders : List (String × String))
    (conn : Except Unit BackendResponse) (wsConn : Except Unit Unit) : HandleResult :=
  if _is_websocket reqHeaders then
    match wsConn with
    | .ok _ => .wsSession
    | .error _ => .badGateway
  else
    match handleRequest conn with
    | .ok r => .reply r
    | .error .clientError => .badGateway
    | .error .valueError => .unhandledValueError

/-- The body chunks a HandleResult delivers to the caller. -/
def emittedChunks : HandleResult → List String
  | .reply (.buffered _ _ b) => [b]
  | .reply (.streamed _ _ _ cs) => cs
  | _ => []

/-! ## Backend URLs and the query string

The plain-HTTP path passes the PARSED query (request.query, a multidict
obtained by percent-decoding the query string) to the client session as
params, and aiohttp/yarl re-encodes those parameters into the request URL;
only the websocket path appends request.query_string verbatim (lines
78-80 versus lines 105-107).  parseQsl models the stdlib parse_qsl with
keep_blank_values (split on the ampersand and semicolon separators, then
on the first equals sign, unquote-plus both parts); quoteQs and
encodeQuery model the yarl query quoter (unreserved characters and the
query-safe set kept, space as plus, the rest percent-encoded, ASCII
range). -/

/-- Hexadecimal digit value of a character, if any. -/
def hexVal (c : Char) : Option Nat :=
  if '0' ≤ c ∧ c ≤ '9' then some (c.toNat - 48)
  else if 'A' ≤ c ∧ c ≤ 'F' then some (c.toNat - 55)
  else if 'a' ≤ c ∧ c ≤ 'f' then some (c.toNat - 87)
  else none

/-- unquote_plus over characters: plus becomes space, a percent followed
by two hex digits becomes the coded byte, malformed escapes stay as-is.
The fuel argument only bounds recursion; with fuel at least the list
length it never runs out, since every step consumes a character. -/
def unquotePlusAux (fuel : Nat) : List Char → List Char
  | [] => []
  | c :: rest =>
    match fuel with
    | 0 => c :: rest
    | fuel + 1 =>
      if c = '%' then
        match rest with
        | a :: b :: rest2 =>
          match hexVal a, hexVal b with
          | some ha, some hb => Char.ofNat (16 * ha + hb) :: unquotePlusAux fuel rest2
          | _, _ => c :: unquotePlusAux fuel rest
        | _ => c :: unquotePlusAux fuel rest
      else if c = '+' then ' ' :: unquotePlusAux fuel rest
      else c :: unquotePlusAux fuel rest

/-- Python urllib unquote_plus (ASCII range). -/
def unquotePlus (s : String) : String := String.mk (unquotePlusAux s.data.length s.data)

/-- Split a character list at every separator character. -/
def splitSepAux (p : Char → Bool) (cur : List Char) : List Char → List (List Char)
  | [] => [cur.reverse]
  | c :: cs => if p c then cur.reverse :: splitSepAux p [] cs else splitSepAux p (c :: cur) cs

/-- Split a string at every separator character. -/
def splitSep (p : Char → Bool) (s : String) : List String :=
  (splitSepAux p [] s.data).map String.mk

/-- One name=value pair of a query string: split at the first equals sign
(value empty when there is none) and unquote both parts. -/
def parsePair (s : String) : String × String :=
  let cs := s.data
  let name := cs.takeWhile (fun c => c ≠ '=')
  let rest := cs.dropWhile (fun c => c ≠ '=')
  (unquotePlus (String.mk name),
   unquotePlus (String.mk (match rest with | [] => [] | _ :: t => t)))

/-- parse_qsl with keep_blank_values, as yarl builds request.query. -/
def parseQsl (qs : String) : List (String × String) :=
  ((splitSep (fun c => c = '&' || c = ';') qs).filter (fun s => s ≠ "")).map parsePair

/-- Characters the yarl query quoter leaves unencoded. -/
def isQsSafe (c : Char) : Bool :=
  c.isAlphanum || c = '-' || c = '.' || c = '_' || c = '~' ||
    c = '?' || c = '/' || c = ':' || c = '@'

/-- Upper-case hexadecimal digit character. -/
def hexDigitUpper (n : Nat) : Char :=
  if n < 10 then Char.ofNat (48 + n) else Char.ofNat (55 + n)

/-- The yarl query quoter on one character (ASCII range). -/
def quoteQsChar (c : Char) : List Char :=
  if isQsSafe c then [c]
  else if c = ' ' then ['+']
  else ['%', hexDigitUpper (c.toNat / 16 % 16), hexDigitUpper (c.toNat % 16)]

/-- The yarl query quoter on a string. -/
def quoteQs (s : String) : String := String.mk (List.join (s.data.map quoteQsChar))

/-- Re-encoding of parsed query parameters into a query string, as yarl
URL.with_query does for the params handed to ClientSession.request. -/
def encodeQuery (l : List (String × String)) : String :=
  String.intercalate "&" (l.map (fun p => quoteQs p.1 ++ "=" ++ quoteQs p.2))

/-- _create_url (lines 41-43). -/
def _create_url (backendHost addon path : String) : String :=
  "http://" ++ backendHost ++ "/addons/" ++ addon ++ "/web/" ++ path

/-- The URL aiohttp issues for ClientSession.request(url, params=...):
with_query of the params when the multidict is truthy, the bare URL
otherwise. -/
def clientSessionUrl (url : String) (params : List (String × String)) : String :=
  if params.isEmpty then url else url ++ "?" ++ encodeQuery params

/-- The effective backend URL of the plain-HTTP path (lines 101, 105-107):
base URL plus the re-encoded parse of the original query string. -/
def httpBackendUrl (backendHost addon path qs : String) : String :=
  clientSessionUrl (_create_url backendHost addon path) (parseQsl qs)

/-- The backend URL of the websocket path (lines 75-80): the original
query string appended verbatim when non-empty. -/
def wsBackendUrl (backendHost addon path qs : String) : String :=
  let url := _create_url backendHost addon path
  if qs ≠ "" then url ++ "?" ++ qs else url

/-! ## The websocket pump -/

/-- aiohttp websocket message types produced by receive(). -/
inductive WSMsgType
  | text
  | binary
  | ping
  | pong
  | close
  | closing
  | closed
  | error
deriving DecidableEq, Repr

/-- A websocket message: its type, the payload of a data frame, and, for a
close frame, the code carried in msg.data and the reason in msg.extra
(for an error message aiohttp leaves extra as None, modelled empty). -/
structure WSMsg where
  type : WSMsgType
  data : String
  closeCode : Option Nat
  extra : String
deriving DecidableEq, Repr

/-- The sends _websocket_forward performs on the destination socket. -/
inductive WSAction
  | send_str (s : String)
  | send_bytes (s : String)
  | ping
  | pong
  | close (code : Option Nat) (message : String)
deriving DecidableEq, Repr

/-- The destination socket state the loop body reads: whether it has
closed and, if so, the close code it stored (ws_to.close_code). -/
structure WSDest where
  closed : Bool
  close_code : Option Nat
deriving DecidableEq, Repr

/-- The body of _websocket_forward for one message (lines 205-215): data
frames are re-sent, ping and pong are answered in kind, and any other
message type that reaches the body, when the destination has already
closed, triggers ws_to.close with the DESTINATION's stored close code and
the originating message's extra; there is no break, so iteration
continues.  Close-family messages never reach this body (see
stopsIteration); of the remaining types only error can take the last
branch. -/
def forwardStep (ws_to : WSDest) (msg : WSMsg) : List WSAction :=
  if msg.type = .text then [.send_str msg.data]
  else if msg.type = .binary then [.send_bytes msg.data]
  else if msg.type = .ping then [.ping]
  else if msg.type = .pong then [.pong]
  else if ws_to.closed then [.close ws_to.close_code msg.extra]
  else []

/-- The message types at which the async-for iteration of lines 205-215
terminates instead of running the body: aiohttp's websocket iterator
raises StopAsyncIteration when receive() returns a CLOSE, CLOSING or
CLOSED message. -/
def stopsIteration (t : WSMsgType) : Bool :=
  t = .close || t = .closing || t = .closed

/-- The messages the async-for loop body actually sees: the prefix of the
receive() sequence before the first close-family message. -/
def iterMsgs (msgs : List WSMsg) : List WSMsg :=
  msgs.takeWhile (fun m => !stopsIteration m.type)

/-- _websocket_forward (lines 203-215): the loop body runs for each
message of the receive() sequence up to (and excluding) the first
close-family message, at which the iteration stops; the destination state
is as observed by the loop body.  (Under aiohttp's default autoping the
reader answers ping frames itself and normally does not yield ping or
pong messages, but the body handles them as written should they arrive.) -/
def websocketForward (ws_to : WSDest) (msgs : List WSMsg) : List WSAction :=
  ((iterMsgs msgs).map (forwardStep ws_to)).join

theorem iterMsgs_cons_stop {msg : WSMsg} (rest : List WSMsg)
    (hs : stopsIteration msg.type = true) : iterMsgs (msg :: rest) = [] := by
  unfold iterMsgs
  simp [List.takeWhile, hs]

theorem iterMsgs_cons_go {msg : WSMsg} (rest : List WSMsg)
    (hs : stopsIteration msg.type = false) :
    iterMsgs (msg :: rest) = msg :: iterMsgs rest := by
  unfold iterMsgs
  simp [List.takeWhile, hs]

/-! ## Claim theorems: the buffered-vs-streamed decision and the dispatcher -/

theorem any_eq_isSome_dictGet (k : String) (d : List (String × String)) :
    (d.any (fun p => p.1 = k)) = (dictGet k d).isSome := by
  induction d with
  | nil => rfl
  | cons p t ih =>
    by_cases h : p.1 = k
    · simp [dictGet, h]
    · simp [dictGet, h, ih]

theorem ciHas_iff (raw : List (String × String)) (name : String) :
    ciHas raw name = true ↔ (ciGet raw name).isSome := by
  unfold ciHas ciGet
  rw [any_eq_isSome_dictGet]

theorem handleRequest_ok_eq (r : BackendResponse) :
    handleRequest (.ok r) =
      (match ciGet r.headers "Content-Length" with
       | none => .ok (.streamed r.status (_response_header r.headers) r.content_type r.chunks)
       | some v =>
         match pyInt v with
         | none => .error .valueError
         | some n =>
           if n < STREAM_THRESHOLD then
             .ok (.buffered r.status (_response_header r.headers) (String.join r.chunks))
           else
             .ok (.streamed r.status (_response_header r.headers) r.content_type r.chunks)) := by
  show (let headers := _response_header r.headers;
    if ciHas r.headers "Content-Length" = true then
      match pyInt ((ciGet r.headers "Content-Length").getD "0") with
      | none => Except.error PyErr.valueError
      | some n =>
        if n < STREAM_THRESHOLD then
          Except.ok (Reply.buffered r.status headers (String.join r.chunks))
        else Except.ok (Reply.streamed r.status headers r.content_type r.chunks)
    else Except.ok (Reply.streamed r.status headers r.content_type r.chunks)) = _
  by_cases hc : ciHas r.headers "Content-Length" = true
  · rw [if_pos hc]
    have hs := (ciHas_iff r.headers "Content-Length").mp hc
    obtain ⟨v, hv⟩ := Option.isSome_iff_exists.mp hs
    rw [hv]
    simp only [Option.getD_some]
  · rw [if_neg hc]
    have hs : ciGet r.headers "Content-Length" = none := by
      cases ho : ciGet r.headers "Content-Length" with
      | none => rfl
      | some v => exact absurd ((ciHas_iff _ _).mpr (by rw [ho]; rfl)) hc
    rw [hs]

/-- Claim C1: on a successful backend response whose Content-Length value,
when present, parses as an integer (a malformed value raises instead, see
C10), handleRequest returns the buffered reply -- full body, transformed
headers, original status -- exactly when Content-Length is present with
integer value strictly below 4194000, and the streamed reply for every
other response. -/
theorem claim_C1 (r : BackendResponse)
    (hp : ∀ v, ciGet r.headers "Content-Length" = some v → (pyInt v).isSome) :
    (handleRequest (.ok r) =
        .ok (.buffered r.status (_response_header r.headers) (String.join r.chunks))
      ↔ ∃ v n, ciGet r.headers "Content-Length" = some v ∧ pyInt v = some n ∧
          n < STREAM_THRESHOLD) ∧
    ((¬∃ v n, ciGet r.headers "Content-Length" = some v ∧ pyInt v = some n ∧
          n < STREAM_THRESHOLD) →
      handleRequest (.ok r) =
        .ok (.streamed r.status (_response_header r.headers) r.content_type r.chunks)) := by
  rw [handleRequest_ok_eq r]
  cases hg : ciGet r.headers "Content-Length" with
  | none =>
    constructor
    · constructor
      · intro he
        exact absurd he (by simp)
      · rintro ⟨v, n, hv, -, -⟩
        cases hv
    · intro _
      rfl
  | some v =>
    have hs : (pyInt v).isSome := hp v hg
    obtain ⟨n, hn⟩ := Option.isSome_iff_exists.mp hs
    simp only [hn]
    by_cases hlt : n < STREAM_THRESHOLD
    · rw [if_pos hlt]
      constructor
      · constructor
        · intro _
          exact ⟨v, n, rfl, hn, hlt⟩
        · intro _
          rfl
      · intro hne
        exact absurd ⟨v, n, rfl, hn, hlt⟩ hne
    · rw [if_neg hlt]
      constructor
      · constructor
        · intro he
          exact absurd he (by simp)
        · rintro ⟨v', n', hv', hn', hlt'⟩
          cases hv'
          rw [hn] at hn'
          cases hn'
          exact absurd hlt' hlt
      · intro _
        rfl

/-- A small concrete backend response used by the C1 witness. -/
def respSmall : BackendResponse :=
  ⟨200, [("Content-Length", "5")], ["hel", "lo"], "text/plain"⟩

theorem claim_C1_witness :
    handleRequest (.ok respSmall) = .ok (.buffered 200 [] "hello") := by
  have h := (claim_C1 respSmall (fun v hv => by
    rw [show ciGet respSmall.headers "Content-Length" = some "5" from by decide] at hv
    injection hv with hv'
    rw [← hv']
    decide)).1.mpr ⟨"5", 5, by decide, by decide, by decide⟩
  rw [h]
  rfl

/-- Claim C2: for a plain HTTP request (not classified as websocket) whose
backend connection attempt raises a client error before any response, the
dispatcher yields the single HTTPBadGateway outcome and emits no body
chunks. -/
theorem claim_C2 (reqHeaders : List (String × String)) (wsConn : Except Unit Unit)
    (hws : _is_websocket reqHeaders = false) :
    handle reqHeaders (.error ()) wsConn = .badGateway ∧
    emittedChunks (handle reqHeaders (.error ()) wsConn) = [] ∧
    badGatewayStatus = 502 := by
  have h1 : handle reqHeaders (.error ()) wsConn = .badGateway := by
    unfold handle
    rw [if_neg (by rw [hws]; exact Bool.false_ne_true)]
    rfl
  refine ⟨h1, ?_, rfl⟩
  rw [h1]
  rfl

theorem claim_C2_witness :
    handle [("Accept", "text/html")] (.error ()) (.ok ()) = .badGateway ∧
    emittedChunks (handle [("Accept", "text/html")] (.error ()) (.ok ())) = [] := by
  have h := claim_C2 [("Accept", "text/html")] (.ok ()) (by decide)
  exact ⟨h.1, h.2.1⟩

/-- A backend response with a malformed Content-Length used by C10. -/
def respMalformed : BackendResponse := ⟨200, [("Content-Length", "abc")], [], "text/plain"⟩

/-- Claim C10: a backend response whose Content-Length is not a valid
integer string makes the buffered-vs-streamed decision raise ValueError,
which is not an aiohttp.ClientError and so is not caught by _handle's
except clause: the request ends in an unhandled exception, not the 502
HTTPBadGateway. -/
theorem claim_C10 :
    handleRequest (.ok respMalformed) = .error .valueError ∧
    handle [("Accept", "text/html")] (.ok respMalformed) (.ok ()) = .unhandledValueError ∧
    HandleResult.unhandledValueError ≠ .badGateway := by
  refine ⟨rfl, rfl, by decide⟩

/-! ## Claim theorems: the outbound header transform -/

theorem initHeaderCI_get_proto (ci : List (String × String)) (addon : String)
    (env : Option String) (peer host scheme : String) :
    dictGet "X-Forwarded-Proto" (initHeaderCI ci addon env peer host scheme) =
      some (forwardProtoValue ci scheme) := by
  unfold initHeaderCI
  exact dictGet_dictInsert_self _ _ _

theorem initHeaderCI_get_host (ci : List (String × String)) (addon : String)
    (env : Option String) (peer host scheme : String) :
    dictGet "X-Forwarded-Host" (initHeaderCI ci addon env peer host scheme) =
      some (forwardHostValue ci host) := by
  unfold initHeaderCI
  rw [dictGet_dictInsert_ne _ _ _ _ (by decide)]
  exact dictGet_dictInsert_self _ _ _

theorem initHeaderCI_get_xff (ci : List (String × String)) (addon : String)
    (env : Option String) (peer host scheme : String) :
    dictGet "X-Forwarded-For" (initHeaderCI ci addon env peer host scheme) =
      some (forwardForValue ci peer) := by
  unfold initHeaderCI
  rw [dictGet_dictInsert_ne _ _ _ _ (by decide), dictGet_dictInsert_ne _ _ _ _ (by decide)]
  exact dictGet_dictInsert_self _ _ _

theorem initHeaderCI_get_ingress (ci : List (String × String)) (addon : String)
    (env : Option String) (peer host scheme : String) :
    dictGet X_INGRESS_PATH (initHeaderCI ci addon env peer host scheme) =
      some ("/api/hassio_ingress/" ++ addon) := by
  unfold initHeaderCI
  rw [dictGet_dictInsert_ne _ _ _ _ (by decide), dictGet_dictInsert_ne _ _ _ _ (by decide),
    dictGet_dictInsert_ne _ _ _ _ (by decide)]
  exact dictGet_dictInsert_self _ _ _

theorem initHeaderCI_get_hassio (ci : List (String × String)) (addon : String)
    (env : Option String) (peer host scheme : String) :
    dictGet X_HASSIO (initHeaderCI ci addon env peer host scheme) =
      some (env.getD "") := by
  unfold initHeaderCI
  rw [dictGet_dictInsert_ne _ _ _ _ (by decide), dictGet_dictInsert_ne _ _ _ _ (by decide),
    dictGet_dictInsert_ne _ _ _ _ (by decide), dictGet_dictInsert_ne _ _ _ _ (by decide)]
  exact dictGet_dictInsert_self _ _ _

theorem initHeaderCI_keys_nodup (ci : List (String × String)) (addon : String)
    (env : Option String) (peer host scheme : String) :
    (keysOf (initHeaderCI ci addon env peer host scheme)).Nodup := by
  unfold initHeaderCI
  refine nodup_keysOf_dictInsert (nodup_keysOf_dictInsert (nodup_keysOf_dictInsert
    (nodup_keysOf_dictInsert (nodup_keysOf_dictInsert ?_))))
  exact nodup_keysOf_copyHeaders _ ci [] (by simp [keysOf])

theorem initHeader_keys_canonical (raw : List (String × String)) (addon : String)
    (env : Option String) (peer host scheme : String) :
    ∀ k ∈ keysOf (_init_header raw addon env peer host scheme), pyTitle k = k := by
  intro k hk
  unfold _init_header initHeaderCI at hk
  rcases mem_keysOf_dictInsert hk with h | h
  · subst h; decide
  rcases mem_keysOf_dictInsert h with h | h
  · subst h; decide
  rcases mem_keysOf_dictInsert h with h | h
  · subst h; decide
  rcases mem_keysOf_dictInsert h with h | h
  · subst h; decide
  rcases mem_keysOf_dictInsert h with h | h
  · subst h; decide
  rcases mem_keysOf_copyHeaders _ _ _ h with h | h
  · simp [keysOf] at h
  · simp only [keysOf, ciItems, List.map_map, List.mem_map] at h
    obtain ⟨p, _, he⟩ := h
    rw [← he]
    exact pyTitle_idem p.1

theorem pairwise_title_of_nodup {l : List String} (hn : l.Nodup)
    (hc : ∀ k ∈ l, pyTitle k = k) :
    l.Pairwise (fun a b => pyTitle a ≠ pyTitle b) := by
  refine List.Pairwise.imp_of_mem ?_ hn
  intro a b ha hb hab
  rw [hc a ha, hc b hb]
  exact hab

/-- Claim C3: the outbound transform's header-name handling is
case-insensitive (two raw inbound header lists with the same canonical
CIMultiDict items produce the same outbound dict), the outbound dict keeps
exactly one value per header name, even up to case (keys are distinct, all
in canonical form, and pairwise distinct under canonicalisation), the
existing X-Forwarded-For value is extended with the peer IP, and the other
injected headers are overwritten outright (trust token and ingress path
replaced with values independent of any inbound value). -/
theorem claim_C3 (raw1 raw2 : List (String × String)) (addon : String)
    (env : Option String) (peer host scheme : String)
    (hci : ciItems raw1 = ciItems raw2) :
    _init_header raw1 addon env peer host scheme =
      _init_header raw2 addon env peer host scheme ∧
    (keysOf (_init_header raw1 addon env peer host scheme)).Nodup ∧
    (∀ k ∈ keysOf (_init_header raw1 addon env peer host scheme), pyTitle k = k) ∧
    (keysOf (_init_header raw1 addon env peer host scheme)).Pairwise
      (fun a b => pyTitle a ≠ pyTitle b) ∧
    dictGet "X-Forwarded-For" (_init_header raw1 addon env peer host scheme) =
      some (forwardForValue (ciItems raw1) peer) ∧
    dictGet X_HASSIO (_init_header raw1 addon env peer host scheme) =
      some (env.getD "") ∧
    dictGet X_INGRESS_PATH (_init_header raw1 addon env peer host scheme) =
      some ("/api/hassio_ingress/" ++ addon) := by
  refine ⟨by unfold _init_header; rw [hci], initHeaderCI_keys_nodup _ _ _ _ _ _,
    initHeader_keys_canonical raw1 addon env peer host scheme,
    pairwise_title_of_nodup (initHeaderCI_keys_nodup _ _ _ _ _ _)
      (initHeader_keys_canonical raw1 addon env peer host scheme),
    initHeaderCI_get_xff _ _ _ _ _ _, initHeaderCI_get_hassio _ _ _ _ _ _,
    initHeaderCI_get_ingress _ _ _ _ _ _⟩

theorem claim_C3_witness :
    _init_header [("x-hassio-key", "fake"), ("CONTENT-TYPE", "text/html")] "a" (some "tok")
        "1.2.3.4" "h" "http" =
      _init_header [("X-Hassio-Key", "fake"), ("Content-Type", "text/html")] "a" (some "tok")
        "1.2.3.4" "h" "http" ∧
    dictGet X_HASSIO (_init_header [("x-hassio-key", "fake"), ("CONTENT-TYPE", "text/html")]
        "a" (some "tok") "1.2.3.4" "h" "http") = some "tok" := by
  have h := claim_C3 [("x-hassio-key", "fake"), ("CONTENT-TYPE", "text/html")]
    [("X-Hassio-Key", "fake"), ("Content-Type", "text/html")] "a" (some "tok")
    "1.2.3.4" "h" "http" (by decide)
  exact ⟨h.1, h.2.2.2.2.2.1⟩

/-- Claim C4: the outbound X-Forwarded-For value extends a present,
non-empty inbound value with a comma, a space and the resolved peer IP,
and is the peer IP alone when the inbound request has none. -/
theorem claim_C4 (raw : List (String × String)) (addon : String) (env : Option String)
    (peer host scheme : String) :
    (∀ v, ciGet raw "X-Forwarded-For" = some v → v ≠ "" →
      dictGet "X-Forwarded-For" (_init_header raw addon env peer host scheme) =
        some (v ++ ", " ++ peer)) ∧
    (ciGet raw "X-Forwarded-For" = none →
      dictGet "X-Forwarded-For" (_init_header raw addon env peer host scheme) =
        some peer) := by
  have hbase := initHeaderCI_get_xff (ciItems raw) addon env peer host scheme
  have hname : pyTitle "X-Forwarded-For" = "X-Forwarded-For" := by decide
  constructor
  · intro v hv hne
    unfold _init_header
    rw [hbase]
    unfold forwardForValue
    unfold ciGet at hv
    rw [hname] at hv
    rw [hv]
    simp [hne]
  · intro hv
    unfold _init_header
    rw [hbase]
    unfold forwardForValue
    unfold ciGet at hv
    rw [hname] at hv
    rw [hv]

theorem claim_C4_witness :
    dictGet "X-Forwarded-For" (_init_header [("X-Forwarded-For", "1.2.3.4")] "a" none
        "5.6.7.8" "h" "http") = some "1.2.3.4, 5.6.7.8" ∧
    dictGet "X-Forwarded-For" (_init_header [] "a" none "5.6.7.8" "h" "http") =
      some "5.6.7.8" := by
  refine ⟨(claim_C4 [("X-Forwarded-For", "1.2.3.4")] "a" none "5.6.7.8" "h" "http").1
    "1.2.3.4" (by decide) (by decide),
    (claim_C4 [] "a" none "5.6.7.8" "h" "http").2 (by decide)⟩

/-- Claim C9: the outbound entries under the trust-token header name and
the ingress-path header name are the HASSIO_TOKEN environment value (empty
string when unset) and the ingress path derived from the addon id,
independent of every inbound header: with unique keys there is no second
entry under either name, so a client-supplied header of either name is
overwritten, and any two requests differing only in inbound headers get
identical values for both entries. -/
theorem claim_C9 (raw raw2 : List (String × String)) (addon : String)
    (env : Option String) (peer host scheme : String) :
    dictGet X_HASSIO (_init_header raw addon env peer host scheme) = some (env.getD "") ∧
    dictGet X_INGRESS_PATH (_init_header raw addon env peer host scheme) =
      some ("/api/hassio_ingress/" ++ addon) ∧
    (∀ v, ( X_HASSIO, v) ∈ _init_header raw addon env peer host scheme →
      v = env.getD "") ∧
    (∀ v, (X_INGRESS_PATH, v) ∈ _init_header raw addon env peer host scheme →
      v = "/api/hassio_ingress/" ++ addon) ∧
    dictGet X_HASSIO (_init_header raw addon env peer host scheme) =
      dictGet X_HASSIO (_init_header raw2 addon env peer host scheme) ∧
    dictGet X_INGRESS_PATH (_init_header raw addon env peer host scheme) =
      dictGet X_INGRESS_PATH (_init_header raw2 addon env peer host scheme) := by
  have hnd := initHeaderCI_keys_nodup (ciItems raw) addon env peer host scheme
  refine ⟨initHeaderCI_get_hassio _ _ _ _ _ _, initHeaderCI_get_ingress _ _ _ _ _ _,
    ?_, ?_, ?_, ?_⟩
  · intro v hm
    have h1 := dictGet_mem_of_nodup hnd hm
    have h2 := initHeaderCI_get_hassio (ciItems raw) addon env peer host scheme
    rw [h1] at h2
    exact Option.some.inj h2
  · intro v hm
    have h1 := dictGet_mem_of_nodup hnd hm
    have h2 := initHeaderCI_get_ingress (ciItems raw) addon env peer host scheme
    rw [h1] at h2
    exact Option.some.inj h2
  · unfold _init_header
    rw [initHeaderCI_get_hassio _ _ _ _ _ _, initHeaderCI_get_hassio _ _ _ _ _ _]
  · unfold _init_header
    rw [initHeaderCI_get_ingress _ _ _ _ _ _, initHeaderCI_get_ingress _ _ _ _ _ _]

theorem claim_C9_witness :
    dictGet X_HASSIO (_init_header [( X_HASSIO, "client-supplied"), (X_INGRESS_PATH, "evil")]
        "a" (some "tok") "p" "h" "s") = some "tok" ∧
    (∀ v, ( X_HASSIO, v) ∈ _init_header [( X_HASSIO, "client-supplied"),
        (X_INGRESS_PATH, "evil")] "a" (some "tok") "p" "h" "s" → v = "tok") := by
  have h := claim_C9 [( X_HASSIO, "client-supplied"), (X_INGRESS_PATH, "evil")] []
    "a" (some "tok") "p" "h" "s"
  exact ⟨h.1, h.2.2.1⟩

/-! ## Claim theorems: response header transform and protocol classifier -/

/-- Claim C7 counterexample: the claimed membership iff quantifies over
every backend response header, but the inbound transform assigns into a
plain dict, so a duplicated response header name -- two Set-Cookie lines
here -- keeps only the last value: the pair carrying the first value is
among the backend response's items and its name is not excluded, yet it
is absent from the output. -/
theorem claim_C7_counterexample :
    _response_header [("Set-Cookie", "a=1"), ("Set-Cookie", "b=2")] =
      [("Set-Cookie", "b=2")] ∧
    ("Set-Cookie", "a=1") ∈ ciItems [("Set-Cookie", "a=1"), ("Set-Cookie", "b=2")] ∧
    ("Set-Cookie", "a=1") ∉
      _response_header [("Set-Cookie", "a=1"), ("Set-Cookie", "b=2")] := by
  refine ⟨by decide, by decide, by decide⟩

/-- Claim C7 amended: for a backend response without duplicate (canonical)
header names, the inbound transform is exactly the filter dropping
Transfer-Encoding, Content-Length and Content-Type: a pair is in the
output iff it is among the response's canonical items and its name is none
of the three, with the value untouched.  (When the backend repeats a
header name, the dict copy keeps only the last value for that name, as
the counterexample shows.) -/
theorem claim_C7 (resp : List (String × String))
    (hn : (keysOf (ciItems resp)).Nodup) :
    _response_header resp =
      (ciItems resp).filter (fun nv =>
        decide (nv.1 ∉ ["Transfer-Encoding", "Content-Length", "Content-Type"])) ∧
    ∀ n v, (n, v) ∈ _response_header resp ↔
      ((n, v) ∈ ciItems resp ∧
        n ∉ ["Transfer-Encoding", "Content-Length", "Content-Type"]) := by
  have h1 : _response_header resp =
      (ciItems resp).filter (fun nv =>
        decide (nv.1 ∉ ["Transfer-Encoding", "Content-Length", "Content-Type"])) := by
    unfold _response_header
    rw [copyHeaders_eq_filter _ _ [] hn (by intro x hx; simp [keysOf] at hx)]
    rw [List.nil_append]
  refine ⟨h1, ?_⟩
  intro n v
  rw [h1, List.mem_filter]
  simp

theorem claim_C7_witness :
    _response_header [("transfer-encoding", "chunked"), ("Server", "nginx"),
        ("content-type", "text/css"), ("Content-Length", "12")] = [("Server", "nginx")] := by
  have h := claim_C7 [("transfer-encoding", "chunked"), ("Server", "nginx"),
    ("content-type", "text/css"), ("Content-Length", "12")] (by decide)
  rw [h.1]
  decide

/-- Claim C8: the protocol classifier returns true iff the Connection
header value is exactly the string Upgrade and the Upgrade header value is
exactly the string websocket, under plain (case-sensitive) string equality
of the values; it is a total function of the headers. -/
theorem claim_C8 (reqHeaders : List (String × String)) :
    _is_websocket reqHeaders = true ↔
      (ciGet reqHeaders "Connection" = some "Upgrade" ∧
        ciGet reqHeaders "Upgrade" = some "websocket") := by
  unfold _is_websocket
  split_ifs with h
  · simp only [true_iff]
    exact h
  · simp only [Bool.false_eq_true, false_iff]
    exact h

/-! ## Claim theorems: backend URL and query string -/

/-- Claim C5 counterexample: for the plain-HTTP path the original query
string is not appended verbatim: a=%20 is parsed to the parameter pair
(a, space) and re-encoded by the client as a=+, so the URL issued to the
backend differs from the verbatim-append form the claim requires. -/
theorem claim_C5_counterexample :
    httpBackendUrl "core-host" "addon1" "index.html" "a=%20" ≠
      _create_url "core-host" "addon1" "index.html" ++ "?" ++ "a=%20" ∧
    httpBackendUrl "core-host" "addon1" "index.html" "a=%20" =
      _create_url "core-host" "addon1" "index.html" ++ "?" ++ "a=+" := by
  constructor
  · decide
  · decide

/-- Claim C5 amended: the backend URL template is
http backendHost /addons/ addonId /web/ path.  On the websocket path a
non-empty query string is appended verbatim.  On the plain-HTTP path the
query string is parsed into parameters and re-encoded by the HTTP client,
so it is appended verbatim exactly when it already equals the canonical
re-encoding of its parse (as a=%20 versus a=+ shows, other query strings
are rewritten). -/
theorem claim_C5_amended (bh a p qs : String) (h1 : parseQsl qs ≠ [])
    (h2 : encodeQuery (parseQsl qs) = qs) :
    httpBackendUrl bh a p qs = _create_url bh a p ++ "?" ++ qs ∧
    (qs ≠ "" → wsBackendUrl bh a p qs = _create_url bh a p ++ "?" ++ qs) := by
  constructor
  · unfold httpBackendUrl clientSessionUrl
    rw [if_neg (by simpa [List.isEmpty_iff] using h1)]
    rw [h2]
  · intro hq
    unfold wsBackendUrl
    rw [if_pos hq]

theorem claim_C5_amended_witness :
    httpBackendUrl "core-host" "addon1" "index.html" "a=1&b=2" =
      _create_url "core-host" "addon1" "index.html" ++ "?" ++ "a=1&b=2" ∧
    wsBackendUrl "core-host" "addon1" "index.html" "a=1&b=2" =
      _create_url "core-host" "addon1" "index.html" ++ "?" ++ "a=1&b=2" := by
  have h := claim_C5_amended "core-host" "addon1" "index.html" "a=1&b=2"
    (by decide) (by decide)
  exact ⟨h.1, h.2 (by decide)⟩

/-! ## Claim theorems: the websocket relay loop -/

/-- The destination-socket snapshot used by the C6 theorems: already
closed, having stored close code 1006. -/
def destClosed : WSDest := ⟨true, some 1006⟩

/-- A close frame carrying originating code 1001 and a reason. -/
def closeMsg1001 : WSMsg := ⟨.close, "", some 1001, "going away"⟩

/-- A following text frame. -/
def textMsgX : WSMsg := ⟨.text, "x", none, ""⟩

/-- A backend transport error message as receive() yields it: type ERROR,
no extra. -/
def errorMsg : WSMsg := ⟨.error, "", none, ""⟩

/-- Claim C6 counterexample: when a close frame (originating code 1001,
reason going away) arrives at the source socket while the destination has
already closed with stored code 1006, the iteration raises
StopAsyncIteration before the loop body runs: the loop emits nothing at
all, so in particular it never forwards the originating close code and
reason to the destination as the claim requires. -/
theorem claim_C6_counterexample :
    websocketForward destClosed [closeMsg1001, textMsgX] = [] ∧
    websocketForward destClosed [closeMsg1001, textMsgX] ≠
      [.close (some 1001) "going away"] := by
  constructor
  · decide
  · decide

/-- Claim C6 amended: a close-family frame never reaches the relay loop
body: the iteration stops at it, the loop processes no further frames and
forwards nothing, so the arriving close code and reason are not relayed.
The destination-already-closed branch runs only for an error message
(the one remaining type that is neither data, ping, pong nor
close-family): then the loop sends the destination a close frame carrying
the destination's own stored close code together with that message's
extra field (None for error messages), and continues with the remaining
frames. -/
theorem claim_C6_amended (d : WSDest) (msg : WSMsg) (rest : List WSMsg) :
    (stopsIteration msg.type = true → websocketForward d (msg :: rest) = []) ∧
    (msg.type = .error → d.closed = true →
      websocketForward d (msg :: rest) =
        .close d.close_code msg.extra :: websocketForward d rest) := by
  constructor
  · intro hs
    unfold websocketForward
    rw [iterMsgs_cons_stop rest hs]
    rfl
  · intro he hc
    have hs : stopsIteration msg.type = false := by rw [he]; rfl
    have e : websocketForward d (msg :: rest) =
        forwardStep d msg ++ websocketForward d rest := by
      unfold websocketForward
      rw [iterMsgs_cons_go rest hs]
      rfl
    rw [e, show forwardStep d msg = [.close d.close_code msg.extra] from by
      unfold forwardStep
      rw [if_neg (by rw [he]; decide), if_neg (by rw [he]; decide),
        if_neg (by rw [he]; decide), if_neg (by rw [he]; decide), if_pos hc]]
    rfl

theorem claim_C6_amended_witness :
    websocketForward destClosed [closeMsg1001, textMsgX] = [] ∧
    websocketForward destClosed [errorMsg] = [.close (some 1006) ""] := by
  have h1 := (claim_C6_amended destClosed closeMsg1001 [textMsgX]).1 (by decide)
  have h2 := (claim_C6_amended destClosed errorMsg []).2 rfl rfl
  refine ⟨h1, ?_⟩
  rw [h2]
  rfl
